import Mathlib

/-!
Shallow embedding of the ml-stat mailing-list statistics tool
(ml-stat.py): the subject classifier, identity normalization, mapping
database loading, change-set key, thread assembler and tenure resolver,
together with theorems that check the specification's claims against
this embedding.
-/

namespace MlStat

/-- Strings are modelled as lists of characters. -/
abbrev Str := List Char

/-- Model of Python s.startswith(p): p is a prefix of s. -/
def startsW : Str → Str → Bool
  | [], _ => true
  | _ :: _, [] => false
  | a :: p, b :: s => a == b && startsW p s

/-- Model of Python s.find(sub) != -1 / `sub in s`: sub occurs somewhere inside s. -/
def occursIn (needle : Str) : Str → Bool
  | [] => needle.isEmpty
  | c :: t => startsW needle (c :: t) || occursIn needle t

/-! ## Subject classifier (class EmailPost) -/

/-- Subject tags treated as discussion markers (EmailPost._is_discussion). -/
def discussionTags : List Str :=
  [("[syzbot] ").toList, ("[ANN]").toList, ("Fw: [Bug ").toList]

/-- EmailPost._is_discussion: some discussion tag occurs in the subject. -/
def isDiscussionTag (s : Str) : Bool := discussionTags.any (fun t => occursIn t s)

/-- EmailPost.is_pr: the subject contains the pull-request marker phrase. -/
def is_pr (s : Str) : Bool := occursIn (("pull req").toList) s

/-- EmailPost.is_patch: first character is a bracket and neither the
pull-request nor the discussion-tag test fires. -/
def is_patch (s : Str) : Bool :=
  (s.head? == some '[') && !is_pr s && !isDiscussionTag s

/-- EmailPost.is_discussion. -/
def is_discussion (s : Str) : Bool :=
  (!is_pr s && !s.contains '[' && !s.contains ']') || isDiscussionTag s

/-- EmailPost.is_bad: more than one of the three primary categories is set. -/
def is_bad (s : Str) : Bool :=
  decide ((is_patch s).toNat + (is_discussion s).toNat + (is_pr s).toNat > 1)

/-! ## Change-set key (ChangeSet.get_key) -/

/-- Suffix of s strictly after the last occurrence of c, if c occurs at all
(models Python s.rfind plus the slice s[idx + 1:]). -/
def afterLast (c : Char) : Str → Option Str
  | [] => none
  | x :: xs =>
    match afterLast c xs with
    | some r => some r
    | none => if x = c then some xs else none

/-- ChangeSet.get_key: everything after the last bracket-close character,
or the whole subject when there is none. -/
def get_key (subject : Str) : Str :=
  match afterLast ']' subject with
  | none => subject
  | some r => r

/-! ## Identity normalization (EmailMsg.get_from_mapped, per address) -/

/-- One mapping table pass: the first rule whose key occurs in the address
fires and its target replaces the whole address (the inner for/break). -/
def applyTable (addr : Str) (table : List (Str × Str)) : Str :=
  match table.find? (fun m => occursIn m.1 addr) with
  | some m => m.2
  | none => addr

/-- Per-address body of EmailMsg.get_from_mapped: wrap a bare address in
angle brackets, strip double quotes, then run every mapping table in order. -/
def mapOne (mappings : List (List (Str × Str))) (addr : Str) : Str :=
  let a1 := if addr.contains '<' then addr else ('<' :: addr) ++ ['>']
  let a2 := a1.filter (fun c => c ≠ '"')
  mappings.foldl applyTable a2

/-! ## Mapping database loading (get_mail_map) -/

/-- Element access m[i] on a JSON tuple modelled as a list of strings. -/
def getE (e : List Str) (i : Nat) : Str := e.getD i []

/-- Transitive corpmap extension loop of get_mail_map: for every mailmap
rule whose target contains a corpmap key, append a derived rule. -/
def extendCorp : List (List Str) → List (List Str) → List (List Str)
  | [], cm => cm
  | m :: rest, cm =>
    match cm.find? (fun c => occursIn (getE c 0) (getE m 1)) with
    | some c => extendCorp rest (cm ++ [[getE m 0, getE c 1]])
    | none => extendCorp rest cm

/-- True on a successful Except result. -/
def isOkE {ε α : Type} : Except ε α → Bool
  | .ok _ => true
  | .error _ => false

/-- get_mail_map: validate that every entry of both tables has exactly two
elements (raising otherwise), then extend corpmap and build use_map. -/
def get_mail_map (mailmap corpmap : List (List Str)) (corp : Bool) :
    Except String (List (List (List Str))) :=
  if mailmap.all (fun e => e.length == 2) then
    if corpmap.all (fun e => e.length == 2) then
      let cm := extendCorp mailmap corpmap
      .ok (if corp then [mailmap, cm] else [mailmap])
    else .error "Entry must have 2 values"
  else .error "Entry must have 2 values"

/-! ## Helper lemmas -/

lemma afterLast_eq_none {c : Char} : ∀ {s : Str}, afterLast c s = none ↔ c ∉ s := by
  intro s
  induction s with
  | nil => simp [afterLast]
  | cons x xs ih =>
    rw [afterLast]
    cases h : afterLast c xs with
    | some r =>
      have hmem : c ∈ xs := by
        by_contra hc
        rw [ih.mpr hc] at h
        cases h
      constructor
      · intro habs; exact absurd habs (by simp)
      · intro habs; exact absurd (List.mem_cons_of_mem x hmem) habs
    | none =>
      have hxs : c ∉ xs := ih.mp h
      by_cases hx : x = c
      · simp [hx]
      · simp [hx, hxs, Ne.symm hx]

lemma afterLast_append {c : Char} (t u : Str) (hu : c ∉ u) :
    afterLast c (t ++ c :: u) = some u := by
  induction t with
  | nil =>
    rw [List.nil_append, afterLast, afterLast_eq_none.mpr hu]
    simp
  | cons x t ih =>
    rw [List.cons_append, afterLast, ih]

lemma foldl_applyTable_id {s : Str} : ∀ (ls : List (List (Str × Str))),
    (∀ table ∈ ls, ∀ m ∈ table, occursIn m.1 s = false) →
    ls.foldl applyTable s = s := by
  intro ls h
  induction ls with
  | nil => rfl
  | cons t rest ih =>
    have ht : applyTable s t = s := by
      unfold applyTable
      have hnone : t.find? (fun m => occursIn m.1 s) = none := by
        rw [List.find?_eq_none]
        intro m hm
        simp [h t (by simp) m hm]
      rw [hnone]
    rw [List.foldl_cons, ht]
    exact ih (fun tb htb m hm => h tb (by simp [htb]) m hm)

/-! ## Claim C1: bracket tag plus pull-request marker -/

/-- Claim C1 counterexample: the subject starts with a bracket and contains
the pull-request marker, yet is_bad is false (the patch test simply yields
to the pull-request match instead of flagging an inconsistency). -/
theorem c1_counterexample :
    (("[PATCH] pull req").toList.head? = some '[') ∧
    is_pr (("[PATCH] pull req").toList) = true ∧
    is_bad (("[PATCH] pull req").toList) = false := by
  decide

/-- Claim C1 (amended): for every subject whose first character is a bracket
and which contains the pull-request marker phrase, is_patch is suppressed and
the post is flagged bad exactly when the subject also carries a discussion
tag; in particular such a subject alone is never flagged bad. -/
theorem c1_pr_bracket (s : Str) (_h1 : s.head? = some '[') (h2 : is_pr s = true) :
    is_bad s = isDiscussionTag s := by
  have hp : is_patch s = false := by simp [is_patch, h2]
  have hd : is_discussion s = isDiscussionTag s := by simp [is_discussion, h2]
  unfold is_bad
  rw [hp, hd, h2]
  cases isDiscussionTag s <;> rfl

/-- Claim C1 witness: concrete subject discharging the hypotheses. -/
theorem c1_witness :
    ((("[syzbot] pull req").toList.head? = some '[') ∧
      is_pr (("[syzbot] pull req").toList) = true) ∧
    is_bad (("[syzbot] pull req").toList) =
      isDiscussionTag (("[syzbot] pull req").toList) :=
  ⟨⟨by decide, by decide⟩, c1_pr_bracket _ (by decide) (by decide)⟩

/-! ## Claim C10: change-set key -/

/-- Claim C10: a subject without a bracket-close is returned unchanged, and a
subject with one is cut strictly after its last bracket-close character. -/
theorem c10_get_key (s : Str) :
    (']' ∉ s → get_key s = s) ∧
    (∀ t u : Str, s = t ++ ']' :: u → ']' ∉ u → get_key s = u) := by
  constructor
  · intro h
    unfold get_key
    rw [afterLast_eq_none.mpr h]
  · intro t u hs hu
    subst hs
    unfold get_key
    rw [afterLast_append t u hu]

/-- Claim C10 witness: both branches at concrete subjects. -/
theorem c10_witness :
    (get_key (("ab").toList) = ("ab").toList) ∧
    (get_key (("[net] fix").toList) = (" fix").toList) :=
  ⟨(c10_get_key _).1 (by decide),
   (c10_get_key _).2 (("[net").toList) ((" fix").toList) (by decide) (by decide)⟩

/-! ## Claim C3: idempotence of identity normalization -/

/-- Mapping tables realising the C3 counterexample. -/
def mapCx : List (List (Str × Str)) :=
  [[(("a").toList, ("b C <c@c>").toList), (("b").toList, ("d <d@d>").toList)]]

/-- Claim C3 counterexample: the canonical output of the mapping pass is
remapped to a different string by a second pass, so normalization is not
idempotent on its own outputs. -/
theorem c3_counterexample :
    mapOne mapCx (("<a@x>").toList) = ("b C <c@c>").toList ∧
    mapOne mapCx (mapOne mapCx (("<a@x>").toList)) ≠ mapOne mapCx (("<a@x>").toList) := by
  decide

/-- Claim C3 (amended): re-running the mapping pass on a canonical identity
returns it unchanged provided the identity contains an angle bracket,
contains no double quote, and no rule key of any table occurs in it. -/
theorem c3_idempotent_unmatched (mappings : List (List (Str × Str))) (s : Str)
    (h1 : s.contains '<' = true) (h2 : ∀ c ∈ s, c ≠ '"')
    (h3 : ∀ table ∈ mappings, ∀ m ∈ table, occursIn m.1 s = false) :
    mapOne mappings s = s := by
  unfold mapOne
  simp only [h1, if_true]
  have e2 : s.filter (fun c => c ≠ '"') = s := by
    rw [List.filter_eq_self]
    intro c hc
    simpa using h2 c hc
  rw [e2]
  exact foldl_applyTable_id mappings h3

/-- Claim C3 witness: a canonical identity untouched by any table. -/
theorem c3_witness :
    mapOne [[(("zz").toList, ("Q <q@q>").toList)]] (("B <b@b>").toList) =
      ("B <b@b>").toList :=
  c3_idempotent_unmatched _ _ (by decide) (by decide) (by decide)

/-! ## Claim C8: mapping database validation -/

/-- Claim C8: get_mail_map succeeds exactly when every entry of both tables
has exactly two elements; on any malformed entry it raises instead, so no
mapping structure is ever produced from a partially checked database. -/
theorem c8_mail_map_check (mm cm : List (List Str)) (corp : Bool) :
    isOkE (get_mail_map mm cm corp) = (mm ++ cm).all (fun e => e.length == 2) := by
  unfold get_mail_map
  rw [List.all_append]
  cases h1 : mm.all (fun e => e.length == 2) <;>
    cases h2 : cm.all (fun e => e.length == 2) <;>
      simp [h1, h2, isOkE]

/-! ## Messages and threads (EmailMsg, EmailThread) -/

/-- Per-message data used by EmailMsg: subject, From header values,
X-Original-From values and the plain-text body (none when absent or
undecodable). -/
structure MsgL where
  subject : Str
  fromList : List Str
  xOrigFrom : List Str
  body : Option Str
deriving DecidableEq

/-- Whitespace characters of Python str.split(). -/
def pyWhitespace (c : Char) : Bool :=
  c = ' ' || c = '\t' || c = '\n' || c = '\r' || c = '\x0b' || c = '\x0c'

/-- Python str.split(): split on whitespace runs, dropping empty pieces. -/
def pySplit (s : Str) : List Str :=
  (s.splitOnP pyWhitespace).filter (fun w => !w.isEmpty)

/-- EmailMsg._is_review_tag: a reply whose plain body contains a
whitespace-delimited token starting with the review or ack keyword. -/
def is_review_tag (m : MsgL) : Bool :=
  if !startsW (("Re: ").toList) m.subject then false
  else
    match m.body with
    | none => false
    | some b =>
      (pySplit b).any (fun w =>
        startsW (("Reviewed-").toList) w || startsW (("Acked-").toList) w)

/-- EmailMsg.is_pwbot_accept: the From header names the patchwork bot. -/
def is_pwbot_accept (m : MsgL) : Bool :=
  match m.fromList.head? with
  | none => false
  | some f =>
    startsW (("patchwork-bot+").toList) f && occursIn (("@kernel.org").toList) f

/-- A thread: the root message plus all member messages (grp['emails']). -/
structure ThreadL where
  root : MsgL
  msgs : List MsgL
deriving DecidableEq

/-- Root subject of a thread (EmailThread subject). -/
def rootSubj (t : ThreadL) : Str := t.root.subject

/-- Flag accumulation loop of EmailThread.__init__: both flags are only
ever updated when the thread classifies as a patch. -/
def flagsGo (isp : Bool) : List MsgL → Bool → Bool → Bool × Bool
  | [], rev, acc => (rev, acc)
  | m :: rest, rev, acc =>
    flagsGo isp rest
      (if isp && !rev then rev || is_review_tag m else rev)
      (if isp && !acc then acc || is_pwbot_accept m else acc)

/-- EmailThread.has_review_tags as computed by the constructor. -/
def has_review_tags (t : ThreadL) : Bool :=
  (flagsGo (is_patch (rootSubj t)) t.msgs false false).1

/-- EmailThread.has_pwbot_accept as computed by the constructor. -/
def has_pwbot_accept (t : ThreadL) : Bool :=
  (flagsGo (is_patch (rootSubj t)) t.msgs false false).2

/-- EmailThread.patch_count: member messages with a leading bracket whose
subject is not a series cover letter. -/
def patch_count (t : ThreadL) : Nat :=
  t.msgs.foldl
    (fun cnt m =>
      if m.subject.head? == some '[' && !occursIn ((" 0/").toList) m.subject then
        cnt + 1
      else cnt) 0

/-- EmailMsg.get_from_mapped: swap in X-Original-From when a B4 relay is
detected, then normalize every address. -/
def get_from_mapped (mp : List (List (Str × Str))) (m : MsgL) : List Str :=
  let fl :=
    if m.fromList.any (fun a => occursIn (("via B4 Relay").toList) a) then m.xOrigFrom
    else m.fromList
  fl.map (mapOne mp)

/-! ## Participant and author dictionaries -/

/-- Person-to-count dictionary (insertion ordered, as a Python dict). -/
abbrev Dict := List (Str × Nat)

/-- Count one more occurrence of a person. -/
def bump (d : Dict) (p : Str) : Dict :=
  if d.any (fun q => q.1 == p) then
    d.map (fun q => if q.1 == p then (q.1, q.2 + 1) else q)
  else d ++ [(p, 1)]

/-- Bot identities dropped from every people dict (remove_bots). -/
def bots : List Str :=
  [("<patchwork-bot+netdevbpf@kernel.org>").toList,
   ("kernel test robot <lkp@intel.com>").toList,
   ("<pr-tracker-bot@kernel.org>").toList,
   ("syzbot <syzbot@syzkaller.appspotmail.com>").toList,
   ("<bot+bpf-ci@kernel.org>").toList,
   ("<patchwork-bot+bluetooth@kernel.org>").toList]

/-- remove_bots: pop every bot key from the dict. -/
def remove_bots (d : Dict) : Dict := d.filter (fun q => !bots.contains q.1)

/-- EmailThread.participants: every sender of every member message. -/
def participantsT (mp : List (List (Str × Str))) (t : ThreadL) : Dict :=
  remove_bots (t.msgs.foldl (fun d m => (get_from_mapped mp m).foldl bump d) [])

/-- EmailThread.authors: senders of the root, pull-request or patch messages. -/
def authorsT (mp : List (List (Str × Str))) (t : ThreadL) : Dict :=
  remove_bots
    (t.msgs.foldl
      (fun d m =>
        if m == t.root || is_pr m.subject || is_patch m.subject then
          (get_from_mapped mp m).foldl bump d
        else d) [])

/-! ## Change sets (class ChangeSet) and the cs_stat loop -/

/-- A change set: the list of threads added via add_thread. -/
structure ChangeSetL where
  threads : List ThreadL
deriving DecidableEq

/-- Python dict merge a |= b: values of b override, new keys append. -/
def dictUnion (a b : Dict) : Dict :=
  a.map (fun q =>
    match b.find? (fun r => r.1 == q.1) with
    | some r => r
    | none => q) ++
  b.filter (fun r => !a.any (fun q => q.1 == r.1))

/-- ChangeSet.participants. -/
def participantsCS (mp : List (List (Str × Str))) (cs : ChangeSetL) : Dict :=
  cs.threads.foldl (fun d t => dictUnion d (participantsT mp t)) []

/-- ChangeSet.authors. -/
def authorsCS (mp : List (List (Str × Str))) (cs : ChangeSetL) : Dict :=
  cs.threads.foldl (fun d t => dictUnion d (authorsT mp t)) []

/-- Membership test `p in d` on a people dict. -/
def dictHas (d : Dict) (p : Str) : Bool := d.any (fun q => q.1 == p)

/-- Flag accumulation of ChangeSet.add_thread over the added threads. -/
def csFlagsGo : List ThreadL → Bool → Bool → Bool × Bool
  | [], rev, acc => (rev, acc)
  | t :: rest, rev, acc =>
    csFlagsGo rest
      (if !rev then rev || has_review_tags t else rev)
      (if !acc then acc || has_pwbot_accept t else acc)

/-- cs.threads[0].patch_count() as used by the cs_stat loop. -/
def firstPatchCount (cs : ChangeSetL) : Nat :=
  match cs.threads with
  | [] => 0
  | t :: _ => patch_count t

/-- One bucket of cs_stat. -/
structure Counter where
  cnt : Nat
  sum : Nat
  max : Nat
  hist : List (Nat × Nat)
deriving DecidableEq

/-- Empty bucket. -/
def counterInit : Counter := ⟨0, 0, 0, []⟩

/-- Bucket keys in itertools.product order. -/
def csKeys : List Str :=
  [("sra").toList, ("sr-").toList, ("s-a").toList, ("s--").toList,
   ("mra").toList, ("mr-").toList, ("m-a").toList, ("m--").toList]

/-- Initial cs_stat table. -/
def csStatInit : List (Str × Counter) := csKeys.map (fun k => (k, counterInit))

/-- Histogram extension loop: append zero buckets until the size reaches n. -/
def histExtend (h : List (Nat × Nat)) (n : Nat) : List (Nat × Nat) :=
  if h.length < n then histExtend (h ++ [(h.length + 1, 0)]) n else h
termination_by n - h.length
decreasing_by
  simp only [List.length_append, List.length_cons, List.length_nil]
  omega

/-- Histogram bucket increment hist[post_cnt] += 1 after extension. -/
def histBump (h : List (Nat × Nat)) (n : Nat) : List (Nat × Nat) :=
  (histExtend h n).map (fun q => if q.1 == n then (q.1, q.2 + 1) else q)

/-- Bucket key of a change set: series/multi, review tag, pw-bot accept. -/
def csKey (cs : ChangeSetL) : Str :=
  [(if firstPatchCount cs > 1 then 'm' else 's'),
   (if (csFlagsGo cs.threads false false).1 then 'r' else '-'),
   (if (csFlagsGo cs.threads false false).2 then 'a' else '-')]

/-- Counter update for one qualifying change set. -/
def statBump (stat : List (Str × Counter)) (k : Str) (postCnt : Nat) :
    List (Str × Counter) :=
  stat.map (fun q =>
    if q.1 == k then
      (q.1, ⟨q.2.cnt + 1, q.2.sum + postCnt, Nat.max q.2.max postCnt,
             histBump q.2.hist postCnt⟩)
    else q)

/-- One step of the cs_stat loop in load_threads: a change set whose first
thread has zero patch_count goes to the anomaly list and is skipped,
everything else updates its bucket with the thread (revision) count. -/
def csStatStep (p : List (Str × Counter) × List ChangeSetL) (cs : ChangeSetL) :
    List (Str × Counter) × List ChangeSetL :=
  if firstPatchCount cs = 0 then (p.1, p.2 ++ [cs])
  else (statBump p.1 (csKey cs) cs.threads.length, p.2)

/-- The cs_stat loop of load_threads: bucket table plus zero_len_cs list. -/
def csStatFull (l : List ChangeSetL) : List (Str × Counter) × List ChangeSetL :=
  l.foldl csStatStep (csStatInit, [])

/-- Componentwise sum of (author-cs, reviewer-cs) tallies. -/
def tallyAdd (x y : Nat × Nat) : Nat × Nat := (x.1 + y.1, x.2 + y.2)

/-- Per-person change-set counters accumulated by the change-set loop of
calc_ppl_stat: one author-cs or reviewer-cs increment per change set the
person participates in; every change set of the run is visited. -/
def csTally (mp : List (List (Str × Str))) : List ChangeSetL → Str → Nat × Nat
  | [], _ => (0, 0)
  | cs :: rest, p =>
    let t := csTally mp rest p
    if dictHas (participantsCS mp cs) p then
      if dictHas (authorsCS mp cs) p then (t.1 + 1, t.2) else (t.1, t.2 + 1)
    else t

/-- Contribution of one change set to a person's (author-cs, reviewer-cs). -/
def csContrib (mp : List (List (Str × Str))) (cs : ChangeSetL) (p : Str) :
    Nat × Nat :=
  if dictHas (participantsCS mp cs) p then
    (if dictHas (authorsCS mp cs) p then (1, 0) else (0, 1))
  else (0, 0)

/-! ## Claim C5: thread review-tag and acceptance flags -/

lemma flagsGo_char (isp : Bool) : ∀ (ms : List MsgL) (rev acc : Bool),
    flagsGo isp ms rev acc =
      (rev || (isp && ms.any is_review_tag),
       acc || (isp && ms.any is_pwbot_accept)) := by
  intro ms
  induction ms with
  | nil => intro rev acc; simp [flagsGo]
  | cons m rest ih =>
    intro rev acc
    rw [flagsGo, ih]
    cases isp <;> cases rev <;> cases acc <;>
      simp [List.any_cons, Bool.or_assoc]

/-- Claim C5 counterexample: a non-patch (pull-request) thread has a member
reply carrying a review keyword, yet its review-tag flag stays false, so the
claimed equivalence for threads of any classification fails. -/
theorem c5_counterexample :
    has_review_tags (ThreadL.mk
      (MsgL.mk (("pull req net").toList) [("A <a@a>").toList] [] none)
      [MsgL.mk (("pull req net").toList) [("A <a@a>").toList] [] none,
       MsgL.mk (("Re: pull req net").toList) [("B <b@b>").toList] []
         (some (("Reviewed-by: X <x@x>").toList))]) = false ∧
    (ThreadL.mk
      (MsgL.mk (("pull req net").toList) [("A <a@a>").toList] [] none)
      [MsgL.mk (("pull req net").toList) [("A <a@a>").toList] [] none,
       MsgL.mk (("Re: pull req net").toList) [("B <b@b>").toList] []
         (some (("Reviewed-by: X <x@x>").toList))]).msgs.any is_review_tag = true := by
  decide

/-- Claim C5 (amended): for patch-classified threads the review-tag flag is
true exactly when a member is a reply whose body has a token starting with
the review or ack keyword, and the acceptance flag exactly when a member is
from the patchwork bot; for non-patch threads both flags are always false. -/
theorem c5_flags (t : ThreadL) :
    has_review_tags t = (is_patch (rootSubj t) && t.msgs.any is_review_tag) ∧
    has_pwbot_accept t = (is_patch (rootSubj t) && t.msgs.any is_pwbot_accept) := by
  unfold has_review_tags has_pwbot_accept
  rw [flagsGo_char]
  simp

/-! ## Claim C6: zero-patch change sets -/

lemma csStat_fst_congr :
    ∀ (l : List ChangeSetL) (a b : List (Str × Counter) × List ChangeSetL),
    a.1 = b.1 → (l.foldl csStatStep a).1 = (l.foldl csStatStep b).1 := by
  intro l
  induction l with
  | nil => intro a b h; exact h
  | cons cs rest ih =>
    intro a b h
    rw [List.foldl_cons, List.foldl_cons]
    apply ih
    unfold csStatStep
    by_cases h0 : firstPatchCount cs = 0 <;> simp [h0, h]

lemma csStat_snd_mono :
    ∀ (l : List ChangeSetL) (a : List (Str × Counter) × List ChangeSetL),
    ∀ x ∈ a.2, x ∈ (l.foldl csStatStep a).2 := by
  intro l
  induction l with
  | nil => intro a x hx; exact hx
  | cons cs rest ih =>
    intro a x hx
    rw [List.foldl_cons]
    apply ih
    unfold csStatStep
    by_cases h0 : firstPatchCount cs = 0 <;> simp [h0, hx]

lemma csTally_cons (mp : List (List (Str × Str))) (cs : ChangeSetL)
    (rest : List ChangeSetL) (p : Str) :
    csTally mp (cs :: rest) p = tallyAdd (csContrib mp cs p) (csTally mp rest p) := by
  rw [csTally]
  unfold csContrib tallyAdd
  by_cases h1 : dictHas (participantsCS mp cs) p
  · by_cases h2 : dictHas (authorsCS mp cs) p <;> simp [h1, h2] <;> omega
  · simp [h1]

lemma csTally_append (mp : List (List (Str × Str))) :
    ∀ (x y : List ChangeSetL) (p : Str),
    csTally mp (x ++ y) p = tallyAdd (csTally mp x p) (csTally mp y p) := by
  intro x
  induction x with
  | nil => intro y p; simp [csTally, tallyAdd]
  | cons cs rest ih =>
    intro y p
    rw [List.cons_append, csTally_cons, csTally_cons, ih]
    unfold tallyAdd
    simp
    omega

/-- Claim C6: a change set whose first thread has zero patch_count is put on
the anomaly list, the cs_stat bucket table is exactly the one computed
without it, and it still contributes its author-cs/reviewer-cs increment to
the per-identity tallies of calc_ppl_stat. -/
theorem c6_zero_patch_cs (mp : List (List (Str × Str))) (pre post : List ChangeSetL)
    (cs : ChangeSetL) (p : Str) (h : firstPatchCount cs = 0) :
    cs ∈ (csStatFull (pre ++ cs :: post)).2 ∧
    (csStatFull (pre ++ cs :: post)).1 = (csStatFull (pre ++ post)).1 ∧
    csTally mp (pre ++ cs :: post) p =
      tallyAdd (csContrib mp cs p) (csTally mp (pre ++ post) p) := by
  refine ⟨?_, ?_, ?_⟩
  · unfold csStatFull
    rw [List.foldl_append, List.foldl_cons]
    apply csStat_snd_mono
    unfold csStatStep
    simp [h]
  · unfold csStatFull
    rw [List.foldl_append, List.foldl_cons, List.foldl_append]
    apply csStat_fst_congr
    unfold csStatStep
    simp [h]
  · rw [csTally_append, csTally_cons, csTally_append]
    unfold tallyAdd
    simp
    omega

/-- Claim C6 witness: a concrete single-thread change set whose only message
is a cover letter (patch_count zero) with a real author. -/
theorem c6_witness :
    firstPatchCount (ChangeSetL.mk
      [ThreadL.mk (MsgL.mk (("[PATCH net 0/3] stuff").toList) [("Dev <d@e>").toList] [] none)
        [MsgL.mk (("[PATCH net 0/3] stuff").toList) [("Dev <d@e>").toList] [] none]]) = 0 ∧
    ((ChangeSetL.mk
      [ThreadL.mk (MsgL.mk (("[PATCH net 0/3] stuff").toList) [("Dev <d@e>").toList] [] none)
        [MsgL.mk (("[PATCH net 0/3] stuff").toList) [("Dev <d@e>").toList] [] none]]) ∈
      (csStatFull [ChangeSetL.mk
        [ThreadL.mk (MsgL.mk (("[PATCH net 0/3] stuff").toList) [("Dev <d@e>").toList] [] none)
          [MsgL.mk (("[PATCH net 0/3] stuff").toList) [("Dev <d@e>").toList] [] none]]]).2 ∧
     (csStatFull [ChangeSetL.mk
        [ThreadL.mk (MsgL.mk (("[PATCH net 0/3] stuff").toList) [("Dev <d@e>").toList] [] none)
          [MsgL.mk (("[PATCH net 0/3] stuff").toList) [("Dev <d@e>").toList] [] none]]]).1 =
       (csStatFull ([] ++ [])).1 ∧
     csTally [] [ChangeSetL.mk
        [ThreadL.mk (MsgL.mk (("[PATCH net 0/3] stuff").toList) [("Dev <d@e>").toList] [] none)
          [MsgL.mk (("[PATCH net 0/3] stuff").toList) [("Dev <d@e>").toList] [] none]]]
        (("Dev <d@e>").toList) =
       tallyAdd (csContrib [] (ChangeSetL.mk
        [ThreadL.mk (MsgL.mk (("[PATCH net 0/3] stuff").toList) [("Dev <d@e>").toList] [] none)
          [MsgL.mk (("[PATCH net 0/3] stuff").toList) [("Dev <d@e>").toList] [] none]])
          (("Dev <d@e>").toList))
         (csTally [] ([] ++ []) (("Dev <d@e>").toList))) :=
  ⟨by decide,
   c6_zero_patch_cs [] [] []
     (ChangeSetL.mk
      [ThreadL.mk (MsgL.mk (("[PATCH net 0/3] stuff").toList) [("Dev <d@e>").toList] [] none)
        [MsgL.mk (("[PATCH net 0/3] stuff").toList) [("Dev <d@e>").toList] [] none]])
     (("Dev <d@e>").toList) (by decide)⟩

/-! ## Tenure resolver (get_author_history, get_ages) -/

/-- Index of the last character satisfying p, if any. -/
def lastIdxAux (p : Char → Bool) : Str → Nat → Option Nat
  | [], _ => none
  | c :: rest, i =>
    match lastIdxAux p rest (i + 1) with
    | some j => some j
    | none => if p c then some i else none

/-- Model of Python re.match with the greedy pattern of two groups split by
a space-bracket pair and closed by a bracket, as compiled in the resolver:
the overall match runs to the last close bracket, group one is everything
before the last space-open-bracket occurrence preceding it, group two is the
text between. Returns (group0, group1, group2). -/
def regexMatch (s : Str) : Option (Str × Str × Str) :=
  match lastIdxAux (fun c => c == '>') s 0 with
  | none => none
  | some j =>
    match ((List.range (j - 1)).filter
        (fun k => s.get? k == some ' ' && s.get? (k + 1) == some '<')).getLast? with
    | none => none
    | some k => some (s.take (j + 1), s.take k, (s.take j).drop (k + 2))

/-- One line of the reverse-ordered commit log: author timestamp, name, email. -/
structure Commit where
  ts : Nat
  name : Str
  mail : Str
deriving DecidableEq

/-- The two tenure indexes, in the creation order of get_author_history. -/
structure Hist where
  mail : List (Str × Nat)
  name : List (Str × Nat)
deriving DecidableEq

/-- Ordered-dict lookup. -/
def alookupN : List (Str × Nat) → Str → Option Nat
  | [], _ => none
  | (k, v) :: rest, x => if k == x then some v else alookupN rest x

/-- Index update of get_author_history for one commit: one-sided alias
back-fill, else a fresh entry on both indexes. -/
def histUpdate (h : Hist) (name mail : Str) (date : Nat) : Hist :=
  match alookupN h.name name with
  | some v =>
    match alookupN h.mail mail with
    | some _ => h
    | none => { h with mail := h.mail ++ [(mail, v)] }
  | none =>
    match alookupN h.mail mail with
    | some v => { h with name := h.name ++ [(name, v)] }
    | none => { name := h.name ++ [(name, date)], mail := h.mail ++ [(mail, date)] }

/-- One commit-log line of get_author_history: when a mailmap rule matches
the committer name or email, the rule target is re-parsed and, exactly as in
the source, the name is taken from match group zero (the whole identity) and
the email from group one (the display name). A target that does not match
the pattern is a crash in the source, modelled as none. -/
def histStep (mailmap : List (Str × Str)) (h : Hist) (c : Commit) : Option Hist :=
  match mailmap.find? (fun m => occursIn m.1 c.name || occursIn m.1 c.mail) with
  | some m =>
    match regexMatch m.2 with
    | none => none
    | some g => some (histUpdate h g.1 g.2.1 c.ts)
  | none => some (histUpdate h c.name c.mail c.ts)

/-- get_author_history over a commit log already ordered oldest first. -/
def get_author_history (mailmap : List (Str × Str)) (commits : List Commit) :
    Option Hist :=
  commits.foldlM (fun h c => histStep mailmap h c) (Hist.mk [] [])

/-- get_ages: for each target identity, the minimum of the name-indexed and
email-indexed earliest dates that exist. -/
def get_ages (names : List Str) (h : Hist) : List (Str × Option Nat) :=
  names.foldl
    (fun acc full =>
      match regexMatch full with
      | none => acc
      | some g =>
        let when1 := alookupN h.name g.2.1
        let when2 :=
          match alookupN h.mail g.2.2 with
          | some mw =>
            some (match when1 with
                  | none => mw
                  | some w => Nat.min w mw)
          | none => when1
        acc ++ [(full, when2)]) []

/-- Claim C4: on a mapped commit the source indexes the name table by match
group zero (the full canonical identity) and the email table by group one
(the display name), instead of the display name and the address; a
subsequent get_ages lookup of the very identity the rule maps to therefore
finds no history on either index and yields no age, although the commit is
in the log. -/
theorem c4_mapped_commit_lookup :
    get_author_history [(("Old Name").toList, ("John Doe <jd@x.com>").toList)]
        [Commit.mk 1000 (("Old Name").toList) (("old@x.com").toList)] =
      some (Hist.mk [(("John Doe").toList, 1000)]
        [(("John Doe <jd@x.com>").toList, 1000)]) ∧
    get_ages [("John Doe <jd@x.com>").toList]
        (Hist.mk [(("John Doe").toList, 1000)]
          [(("John Doe <jd@x.com>").toList, 1000)]) =
      [(("John Doe <jd@x.com>").toList, none)] := by
  constructor
  · decide
  · decide

/-! ## Thread assembler (group_one_msg and the load_threads loops) -/

/-- Message data consumed by the assembler: message-id, parsed reference
set, subject, From header and the X-stable review marker. -/
structure Msg where
  mid : Str
  refs : List Str
  subject : Str
  fromHdr : Str
  xstable : Bool
deriving DecidableEq

/-- The message-id to thread-root index (ps.email_grps, with each group
represented by the message-id of its root). -/
abbrev GState := List (Str × Str)

/-- Index lookup. -/
def alookup : GState → Str → Option Str
  | [], _ => none
  | (k, v) :: rest, x => if k == x then some v else alookup rest x

/-- Force-root condition computed per message in load_threads: bug-tracker
forward, stable autosel subject, or stable review header. -/
def forceRootCond (m : Msg) : Bool :=
  startsW (("Fw: [Bug").toList) m.subject ||
  occursIn (("PATCH AUTOSEL").toList) m.subject || m.xstable

/-- Secondary root rule of group_one_msg: a reply to a syzbot report sent
by the syzbot sender itself. -/
def syzRootCond (m : Msg) : Bool :=
  startsW (("Re: [syzbot]").toList) m.subject &&
  occursIn (("@syzkaller.appspotmail.com>").toList) m.fromHdr

/-- Reference scan of group_one_msg: first reference already indexed wins. -/
def findRefRoot (st : GState) : List Str → Option Str
  | [] => none
  | r :: rs =>
    match alookup st r with
    | some root => some root
    | none => findRefRoot st rs

/-- group_one_msg: root when the reference set is empty or force_root is
set; else attach to the group of the first indexed reference; else the
syzbot rule may still root it; else report a miss (none). -/
def groupOne (st : GState) (m : Msg) (force : Bool) : Option GState :=
  if m.refs.isEmpty || force then some ((m.mid, m.mid) :: st)
  else
    match findRefRoot st m.refs with
    | some root => some ((m.mid, root) :: st)
    | none => if syzRootCond m then some ((m.mid, m.mid) :: st) else none

/-- Member message-ids of the thread rooted at a given id. -/
def members (st : GState) (root : Str) : List Str :=
  (st.filter (fun q => q.2 == root)).map (fun q => q.1)

/-- Initial oldest-first pass of load_threads: skip subject-less messages,
group with the per-message force-root condition, defer misses. -/
def initPass : GState → List Msg → List Msg → GState × List Msg
  | st, misses, [] => (st, misses)
  | st, misses, m :: rest =>
    if m.subject.isEmpty then initPass st misses rest
    else
      match groupOne st m (forceRootCond m) with
      | some st1 => initPass st1 misses rest
      | none => initPass st (misses ++ [m]) rest

/-- One left-to-right scan of the miss queue, removing on success (the
inner while of the retry loop; retries never pass force_root). -/
def onePass : GState → List Msg → GState × List Msg
  | st, [] => (st, [])
  | st, m :: rest =>
    match groupOne st m false with
    | some st1 => onePass st1 rest
    | none =>
      let p := onePass st rest
      (p.1, m :: p.2)

/-- The outer retry loop of load_threads, with the pass count: keep
re-scanning while the queue length changed since the last check. The fuel
argument only bounds the recursion and is never exhausted when it starts at
queue length plus two (each non-final pass removes at least one message). -/
def retryFuel : Nat → GState → List Msg → Nat → GState × List Msg × Nat
  | 0, st, ms, _ => (st, ms, 0)
  | fuel + 1, st, ms, nm =>
    if nm = ms.length then (st, ms, 0)
    else
      let p := onePass st ms
      let q := retryFuel fuel p.1 p.2 ms.length
      (q.1, q.2.1, q.2.2 + 1)

/-- The retry loop as run by load_threads (n_misses starts at zero). -/
def retry_loop (st : GState) (ms : List Msg) : GState × List Msg × Nat :=
  retryFuel (ms.length + 2) st ms 0

/-- Root index after the initial pass plus the retry loop. -/
def assembleState (l : List Msg) : GState :=
  (retry_loop (initPass [] [] l).1 (initPass [] [] l).2).1

/-- Final thread membership: the root assigned to a message-id, if any. -/
def membership (l : List Msg) (k : Str) : Option Str :=
  alookup (assembleState l) k

/-! ## Claim C7: reference-less messages become singleton roots -/

/-- Claim C7: a message with an empty reference set and no force-root
condition is rooted as its own thread by group_one_msg, and in the resulting
index that thread has exactly one member. -/
theorem c7_rootless_singleton (st : GState) (m : Msg) (h1 : m.refs = [])
    (_h2 : forceRootCond m = false) (h3 : ∀ q ∈ st, q.2 ≠ m.mid) :
    groupOne st m (forceRootCond m) = some ((m.mid, m.mid) :: st) ∧
    members ((m.mid, m.mid) :: st) m.mid = [m.mid] := by
  constructor
  · rw [groupOne]
    simp [h1]
  · unfold members
    rw [List.filter_cons]
    have hst : st.filter (fun q => q.2 == m.mid) = [] := by
      rw [List.filter_eq_nil_iff]
      intro q hq
      simp [h3 q hq]
    simp [hst]

/-- Claim C7 witness. -/
theorem c7_witness :
    ((Msg.mk (("<m>").toList) [] (("hello").toList) (("x@y").toList) false).refs = [] ∧
      forceRootCond (Msg.mk (("<m>").toList) [] (("hello").toList) (("x@y").toList) false) = false) ∧
    (groupOne [] (Msg.mk (("<m>").toList) [] (("hello").toList) (("x@y").toList) false)
        (forceRootCond (Msg.mk (("<m>").toList) [] (("hello").toList) (("x@y").toList) false)) =
      some [((("<m>").toList), (("<m>").toList))] ∧
     members [((("<m>").toList), (("<m>").toList))] (("<m>").toList) = [("<m>").toList]) :=
  ⟨⟨rfl, by decide⟩,
   c7_rootless_singleton []
     (Msg.mk (("<m>").toList) [] (("hello").toList) (("x@y").toList) false)
     rfl (by decide) (by simp)⟩

/-! ## Claim C9: the retry loop terminates at a fixed point -/

lemma onePass_cons_some {st st1 : GState} {m : Msg} {rest : List Msg}
    (h : groupOne st m false = some st1) :
    onePass st (m :: rest) = onePass st1 rest := by
  rw [onePass, h]

lemma onePass_cons_none {st : GState} {m : Msg} {rest : List Msg}
    (h : groupOne st m false = none) :
    onePass st (m :: rest) = ((onePass st rest).1, m :: (onePass st rest).2) := by
  rw [onePass, h]

lemma onePass_len_le : ∀ (ms : List Msg) (st : GState),
    (onePass st ms).2.length ≤ ms.length := by
  intro ms
  induction ms with
  | nil => intro st; simp [onePass]
  | cons m rest ih =>
    intro st
    cases hgo : groupOne st m false with
    | some st1 =>
      rw [onePass_cons_some hgo]
      exact le_trans (ih st1) (Nat.le_succ _)
    | none =>
      rw [onePass_cons_none hgo]
      have := ih st
      simp only [List.length_cons]
      omega

lemma onePass_eq_of_len : ∀ (ms : List Msg) (st : GState),
    (onePass st ms).2.length = ms.length → onePass st ms = (st, ms) := by
  intro ms
  induction ms with
  | nil => intro st _; rfl
  | cons m rest ih =>
    intro st hlen
    cases hgo : groupOne st m false with
    | some st1 =>
      rw [onePass_cons_some hgo] at hlen
      have hle := onePass_len_le rest st1
      simp only [List.length_cons] at hlen
      exact absurd hlen (by omega)
    | none =>
      rw [onePass_cons_none hgo] at hlen ⊢
      simp only [List.length_cons] at hlen
      have h2 : (onePass st rest).2.length = rest.length := by omega
      rw [ih st h2]

lemma onePass_none_of_fixed : ∀ (ms : List Msg) (st : GState),
    onePass st ms = (st, ms) → ∀ m ∈ ms, groupOne st m false = none := by
  intro ms
  induction ms with
  | nil => intro st _ m hm; cases hm
  | cons m rest ih =>
    intro st hfix m0 hm0
    cases hgo : groupOne st m false with
    | some st1 =>
      rw [onePass_cons_some hgo] at hfix
      have hle := onePass_len_le rest st1
      have hl : (onePass st1 rest).2.length = (m :: rest).length := by rw [hfix]
      simp only [List.length_cons] at hl
      exact absurd hl (by omega)
    | none =>
      rw [onePass_cons_none hgo] at hfix
      have h1 : (onePass st rest).1 = st := congrArg Prod.fst hfix
      have h2 : m :: (onePass st rest).2 = m :: rest := congrArg Prod.snd hfix
      have h2' : (onePass st rest).2 = rest := by
        injection h2
      have hrest : onePass st rest = (st, rest) := Prod.ext h1 h2'
      cases hm0 with
      | head => exact hgo
      | tail _ hmem => exact ih st hrest m0 hmem

lemma retryFuel_succ (f : Nat) (st : GState) (ms : List Msg) (nm : Nat) :
    retryFuel (f + 1) st ms nm =
      if nm = ms.length then (st, ms, 0)
      else
        ((retryFuel f (onePass st ms).1 (onePass st ms).2 ms.length).1,
         (retryFuel f (onePass st ms).1 (onePass st ms).2 ms.length).2.1,
         (retryFuel f (onePass st ms).1 (onePass st ms).2 ms.length).2.2 + 1) := by
  rfl

lemma retryFuel_spec : ∀ (f : Nat) (st : GState) (ms : List Msg) (nm : Nat),
    ms.length + 2 ≤ f → (nm ≠ ms.length ∨ ms = []) →
    (retryFuel f st ms nm).2.2 ≤ ms.length + 1 ∧
    onePass (retryFuel f st ms nm).1 (retryFuel f st ms nm).2.1 =
      ((retryFuel f st ms nm).1, (retryFuel f st ms nm).2.1) := by
  intro f
  induction f with
  | zero =>
    intro st ms nm hf _
    exact absurd hf (by omega)
  | succ f ih =>
    intro st ms nm hf hnm
    rw [retryFuel_succ]
    by_cases he : nm = ms.length
    · have hms : ms = [] := by
        cases hnm with
        | inl h => exact absurd he h
        | inr h => exact h
      subst hms
      rw [if_pos he]
      exact ⟨Nat.zero_le _, rfl⟩
    · rw [if_neg he]
      by_cases hlen : (onePass st ms).2.length = ms.length
      · have hid : onePass st ms = (st, ms) := onePass_eq_of_len ms st hlen
        rw [hid]
        cases f with
        | zero => exact absurd hf (by omega)
        | succ f2 =>
          rw [retryFuel_succ, if_pos rfl]
          exact ⟨by dsimp only; omega, hid⟩
      · have hlt : (onePass st ms).2.length < ms.length :=
          lt_of_le_of_ne (onePass_len_le ms st) hlen
        have hrec := ih (onePass st ms).1 (onePass st ms).2 ms.length
          (by omega) (Or.inl (fun h => hlen h.symm))
        refine ⟨?_, hrec.2⟩
        have h1 := hrec.1
        dsimp only
        omega

/-- Claim C9: the retry loop reaches, after at most (initial queue length
plus one) passes, a state where one further scan of the remaining miss
queue removes nothing (the fixed point). -/
theorem c9_retry_fixed_point (st : GState) (ms : List Msg) :
    (retry_loop st ms).2.2 ≤ ms.length + 1 ∧
    onePass (retry_loop st ms).1 (retry_loop st ms).2.1 =
      ((retry_loop st ms).1, (retry_loop st ms).2.1) := by
  unfold retry_loop
  apply retryFuel_spec
  · omega
  · by_cases h : ms = []
    · exact Or.inr h
    · refine Or.inl (fun h0 => h ?_)
      exact List.length_eq_zero.mp h0.symm

/-! ## Claim C2: order independence of thread membership -/

/-- Well-formedness assumptions for the order-independence theorem:
pairwise distinct message-ids, references closed over the run, at most one
reference per message, no syzbot-root replies, and no missing subjects. -/
structure Good (l : List Msg) : Prop where
  nodup : (l.map Msg.mid).Nodup
  closed : ∀ m ∈ l, ∀ r ∈ m.refs, ∃ p ∈ l, p.mid = r
  oneRef : ∀ m ∈ l, m.refs.length ≤ 1
  noSyz : ∀ m ∈ l, syzRootCond m = false
  hasSubj : ∀ m ∈ l, m.subject ≠ []

/-- The message of the run carrying a given message-id, if any. -/
def findMsg (l : List Msg) (r : Str) : Option Msg :=
  l.find? (fun m => m.mid == r)

lemma findMsg_of_mem : ∀ (l : List Msg), (l.map Msg.mid).Nodup → ∀ (p : Msg), p ∈ l →
    findMsg l p.mid = some p := by
  intro l
  induction l with
  | nil => intro _ p hp; cases hp
  | cons a rest ih =>
    intro hn p hp
    simp only [List.map_cons, List.nodup_cons] at hn
    cases List.mem_cons.mp hp with
    | inl h =>
      subst h
      unfold findMsg
      rw [List.find?_cons_of_pos _ (by simp)]
    | inr h =>
      have hne : a.mid ≠ p.mid := by
        intro he
        exact hn.1 (he ▸ List.mem_map_of_mem Msg.mid h)
      unfold findMsg
      rw [List.find?_cons_of_neg _ (by simp [hne])]
      exact ih hn.2 p h

lemma findMsg_eq {l : List Msg} (hn : (l.map Msg.mid).Nodup) {r : Str} {p : Msg} :
    findMsg l r = some p ↔ (p ∈ l ∧ p.mid = r) := by
  constructor
  · intro h
    have hmem := List.mem_of_find?_eq_some h
    have hpr := List.find?_some h
    exact ⟨hmem, by simpa using hpr⟩
  · intro h
    rw [← h.2]
    exact findMsg_of_mem l hn p h.1

lemma mid_inj {l : List Msg} (hn : (l.map Msg.mid).Nodup) {p q : Msg}
    (hp : p ∈ l) (hq : q ∈ l) (he : p.mid = q.mid) : p = q := by
  have h1 := findMsg_of_mem l hn p hp
  have h2 := findMsg_of_mem l hn q hq
  rw [← he] at h2
  rw [h1] at h2
  exact Option.some.inj h2

/-- Canonical root assignment: a message roots itself when its reference
set is empty or its force-root condition holds, and otherwise inherits the
root reached by the message its single reference names. -/
inductive Reaches (l : List Msg) : Msg → Str → Prop where
  | isRoot (m : Msg) (h : (m.refs.isEmpty || forceRootCond m) = true) :
      Reaches l m m.mid
  | step (m p : Msg) (r ρ : Str) (hno : (m.refs.isEmpty || forceRootCond m) = false)
      (hr : m.refs = [r]) (hp : findMsg l r = some p) (hrec : Reaches l p ρ) :
      Reaches l m ρ

lemma reaches_fun {l : List Msg} : ∀ {m : Msg} {r1 r2 : Str},
    Reaches l m r1 → Reaches l m r2 → r1 = r2 := by
  intro m r1 r2 h1
  induction h1 generalizing r2 with
  | isRoot m0 h0 =>
    intro h2
    cases h2 with
    | isRoot => rfl
    | step _ _ _ _ hno => simp [h0] at hno
  | step m0 p r ρ hno hr hp hrec ih =>
    intro h2
    cases h2 with
    | isRoot _ h0 => simp [h0] at hno
    | step _ q rq ρq hnoq hrq hpq hrecq =>
      rw [hr] at hrq
      injection hrq with hrr _
      subst hrr
      rw [hp] at hpq
      injection hpq with hpp
      subst hpp
      exact ih hrecq

lemma good_perm {l lp : List Msg} (h : lp.Perm l) (hg : Good l) : Good lp := by
  refine ⟨?_, ?_, ?_, ?_, ?_⟩
  · exact ((h.map Msg.mid).nodup_iff).mpr hg.nodup
  · intro m hm r hr
    obtain ⟨p, hpl, hpr⟩ := hg.closed m (h.mem_iff.mp hm) r hr
    exact ⟨p, h.mem_iff.mpr hpl, hpr⟩
  · intro m hm; exact hg.oneRef m (h.mem_iff.mp hm)
  · intro m hm; exact hg.noSyz m (h.mem_iff.mp hm)
  · intro m hm; exact hg.hasSubj m (h.mem_iff.mp hm)

lemma reaches_perm {l lp : List Msg} (hp : lp.Perm l) (hg : Good l) {m : Msg} {ρ : Str}
    (h : Reaches l m ρ) : Reaches lp m ρ := by
  have hg' : Good lp := good_perm hp hg
  induction h with
  | isRoot m0 h0 => exact Reaches.isRoot m0 h0
  | step m0 p r ρ0 hno hr hfind hrec ih =>
    have hmem : p ∈ l ∧ p.mid = r := (findMsg_eq hg.nodup).mp hfind
    have hfind' : findMsg lp r = some p :=
      (findMsg_eq hg'.nodup).mpr ⟨hp.mem_iff.mpr hmem.1, hmem.2⟩
    exact Reaches.step m0 p r ρ0 hno hr hfind' ih

/-- Soundness invariant: every index entry maps a run message-id to its
canonical root. -/
def SInv (l : List Msg) (st : GState) : Prop :=
  ∀ k v, alookup st k = some v → ∃ m, m ∈ l ∧ m.mid = k ∧ Reaches l m v

/-- Miss-queue invariant: every queued message belongs to the run, has at
least one reference and no force-root condition. -/
def MissInv (l : List Msg) (misses : List Msg) : Prop :=
  ∀ m ∈ misses, m ∈ l ∧ m.refs ≠ [] ∧ forceRootCond m = false

lemma alookup_cons (x v : Str) (st : GState) (k : Str) :
    alookup ((x, v) :: st) k = if x == k then some v else alookup st k := rfl

lemma groupOne_shape {st st' : GState} {m : Msg} {force : Bool}
    (h : groupOne st m force = some st') : ∃ w, st' = (m.mid, w) :: st := by
  unfold groupOne at h
  split at h
  · exact ⟨m.mid, (Option.some.inj h).symm⟩
  · split at h
    next root _ => exact ⟨root, (Option.some.inj h).symm⟩
    next =>
      split at h
      · exact ⟨m.mid, (Option.some.inj h).symm⟩
      · cases h

lemma groupOne_self {st st' : GState} {m : Msg} {force : Bool}
    (h : groupOne st m force = some st') : (alookup st' m.mid).isSome := by
  obtain ⟨w, rfl⟩ := groupOne_shape h
  rw [alookup_cons]
  simp

lemma groupOne_mono {st st' : GState} {m : Msg} {force : Bool}
    (h : groupOne st m force = some st') (k : Str)
    (hk : (alookup st k).isSome) : (alookup st' k).isSome := by
  obtain ⟨w, rfl⟩ := groupOne_shape h
  rw [alookup_cons]
  cases he : (m.mid == k) <;> simp [hk]

lemma groupOne_none_facts {st : GState} {m : Msg} {force : Bool}
    (h : groupOne st m force = none) :
    m.refs.isEmpty = false ∧ force = false := by
  unfold groupOne at h
  split at h
  next h1 => cases h
  next h1 =>
    constructor
    · cases hr : m.refs.isEmpty
      · rfl
      · exact absurd (by simp [hr]) h1
    · cases hf : force
      · rfl
      · exact absurd (by simp [hf]) h1

lemma refs_singleton {m : Msg} (hne : m.refs.isEmpty = false) (hle : m.refs.length ≤ 1) :
    ∃ r, m.refs = [r] := by
  cases hr : m.refs with
  | nil => rw [hr] at hne; simp at hne
  | cons r rest =>
    rw [hr] at hle
    simp only [List.length_cons] at hle
    have hnil : rest = [] := List.length_eq_zero.mp (by omega)
    exact ⟨r, by rw [hnil]⟩

lemma findRefRoot_single {st : GState} {r root : Str}
    (h : findRefRoot st [r] = some root) : alookup st r = some root := by
  rw [findRefRoot] at h
  split at h
  next heq => rw [heq]; exact h
  next heq => rw [findRefRoot] at h; cases h

lemma groupOne_attach {st : GState} {m : Msg} {r ρ : Str}
    (hr : m.refs = [r]) (hl : alookup st r = some ρ) :
    groupOne st m false = some ((m.mid, ρ) :: st) := by
  unfold groupOne
  rw [hr]
  rw [if_neg (by simp)]
  rw [findRefRoot, hl]

lemma groupOne_sound {l : List Msg} (hg : Good l) {st st' : GState} {m : Msg} {force : Bool}
    (hs : SInv l st) (hm : m ∈ l)
    (hf : force = forceRootCond m ∨ (force = false ∧ forceRootCond m = false))
    (hgo : groupOne st m force = some st') : SInv l st' := by
  unfold groupOne at hgo
  split at hgo
  next h1 =>
    have hst : st' = (m.mid, m.mid) :: st := (Option.some.inj hgo).symm
    subst hst
    intro k v hkv
    rw [alookup_cons] at hkv
    by_cases hk : (m.mid == k) = true
    · rw [if_pos hk] at hkv
      injection hkv with hv
      have hroot : (m.refs.isEmpty || forceRootCond m) = true := by
        cases hf with
        | inl he => rw [← he]; exact h1
        | inr he =>
          rw [he.1] at h1
          simp only [Bool.or_false] at h1
          simp [h1]
      exact ⟨m, hm, eq_of_beq hk, hv ▸ Reaches.isRoot m hroot⟩
    · rw [if_neg hk] at hkv
      exact hs k v hkv
  next h1 =>
    have hforce : forceRootCond m = false := by
      cases hf with
      | inl he =>
        cases hfc : forceRootCond m
        · rfl
        · rw [← he] at hfc
          exact absurd (by simp [hfc]) h1
      | inr he => exact he.2
    have hempty : m.refs.isEmpty = false := by
      cases hr : m.refs.isEmpty
      · rfl
      · exact absurd (by simp [hr]) h1
    split at hgo
    next root heq =>
      have hst : st' = (m.mid, root) :: st := (Option.some.inj hgo).symm
      subst hst
      obtain ⟨r, hr⟩ := refs_singleton hempty (hg.oneRef m hm)
      have halr : alookup st r = some root := findRefRoot_single (hr ▸ heq)
      obtain ⟨p, hpl, hpmid, hpre⟩ := hs r root halr
      have hfind : findMsg l r = some p := (findMsg_eq hg.nodup).mpr ⟨hpl, hpmid⟩
      have hre : Reaches l m root :=
        Reaches.step m p r root (by simp [hempty, hforce]) hr hfind hpre
      intro k v hkv
      rw [alookup_cons] at hkv
      by_cases hk : (m.mid == k) = true
      · rw [if_pos hk] at hkv
        injection hkv with hv
        exact ⟨m, hm, eq_of_beq hk, hv ▸ hre⟩
      · rw [if_neg hk] at hkv
        exact hs k v hkv
    next =>
      split at hgo
      next hsyz => rw [hg.noSyz m hm] at hsyz; cases hsyz
      next => cases hgo

lemma initPass_nil (st : GState) (misses : List Msg) :
    initPass st misses [] = (st, misses) := rfl

lemma initPass_cons_some {m : Msg} {st st1 : GState} (misses rest : List Msg)
    (h1 : m.subject.isEmpty = false) (h2 : groupOne st m (forceRootCond m) = some st1) :
    initPass st misses (m :: rest) = initPass st1 misses rest := by
  rw [initPass, if_neg (by simp [h1]), h2]

lemma initPass_cons_none {m : Msg} {st : GState} (misses rest : List Msg)
    (h1 : m.subject.isEmpty = false) (h2 : groupOne st m (forceRootCond m) = none) :
    initPass st misses (m :: rest) = initPass st (misses ++ [m]) rest := by
  rw [initPass, if_neg (by simp [h1]), h2]

lemma initPass_spec {l : List Msg} (hg : Good l) :
    ∀ (rest : List Msg) (st : GState) (misses : List Msg),
    (∀ m ∈ rest, m ∈ l) → SInv l st → MissInv l misses →
    SInv l (initPass st misses rest).1 ∧ MissInv l (initPass st misses rest).2 ∧
    (∀ m ∈ rest, (alookup (initPass st misses rest).1 m.mid).isSome ∨
      m ∈ (initPass st misses rest).2) ∧
    (∀ m ∈ misses, m ∈ (initPass st misses rest).2) ∧
    (∀ k, (alookup st k).isSome → (alookup (initPass st misses rest).1 k).isSome) := by
  intro rest
  induction rest with
  | nil =>
    intro st misses _ hS hM
    rw [initPass_nil]
    exact ⟨hS, hM, (by intro m hm; cases hm), fun m hm => hm, fun k hk => hk⟩
  | cons m rest ih =>
    intro st misses hsub hS hM
    have hml : m ∈ l := hsub m (List.mem_cons_self m rest)
    have hsubrest : ∀ m0 ∈ rest, m0 ∈ l :=
      fun m0 h0 => hsub m0 (List.mem_cons_of_mem m h0)
    have hsubj : m.subject.isEmpty = false := by
      rw [Bool.eq_false_iff]
      intro hemp
      exact hg.hasSubj m hml (List.isEmpty_iff.mp hemp)
    cases hgo : groupOne st m (forceRootCond m) with
    | some st1 =>
      rw [initPass_cons_some misses rest hsubj hgo]
      have hS1 : SInv l st1 := groupOne_sound hg hS hml (Or.inl rfl) hgo
      obtain ⟨S, M, covR, covM, mono⟩ := ih st1 misses hsubrest hS1 hM
      refine ⟨S, M, ?_, covM, fun k hk => mono k (groupOne_mono hgo k hk)⟩
      intro m0 hm0
      cases List.mem_cons.mp hm0 with
      | inl he => subst he; exact Or.inl (mono _ (groupOne_self hgo))
      | inr h0 => exact covR m0 h0
    | none =>
      rw [initPass_cons_none misses rest hsubj hgo]
      have hM1 : MissInv l (misses ++ [m]) := by
        intro m0 hm0
        cases List.mem_append.mp hm0 with
        | inl h0 => exact hM m0 h0
        | inr h0 =>
          have he : m0 = m := List.mem_singleton.mp h0
          subst he
          obtain ⟨hrefs, hfr⟩ := groupOne_none_facts hgo
          refine ⟨hml, ?_, hfr⟩
          intro hnil
          rw [hnil] at hrefs
          simp at hrefs
      obtain ⟨S, M, covR, covM, mono⟩ := ih st (misses ++ [m]) hsubrest hS hM1
      refine ⟨S, M, ?_, ?_, mono⟩
      · intro m0 hm0
        cases List.mem_cons.mp hm0 with
        | inl he =>
          subst he
          exact Or.inr (covM m0 (List.mem_append_right misses (List.mem_singleton_self m0)))
        | inr h0 => exact covR m0 h0
      · intro m0 hm0
        exact covM m0 (List.mem_append_left _ hm0)

lemma onePass_spec {l : List Msg} (hg : Good l) :
    ∀ (ms : List Msg) (st : GState), SInv l st → MissInv l ms →
    SInv l (onePass st ms).1 ∧ MissInv l (onePass st ms).2 ∧
    (∀ m ∈ ms, (alookup (onePass st ms).1 m.mid).isSome ∨ m ∈ (onePass st ms).2) ∧
    (∀ k, (alookup st k).isSome → (alookup (onePass st ms).1 k).isSome) := by
  intro ms
  induction ms with
  | nil =>
    intro st hS hM
    exact ⟨hS, hM, (by intro m hm; cases hm), fun k hk => hk⟩
  | cons m rest ih =>
    intro st hS hM
    have hmrest : MissInv l rest := fun m0 h0 => hM m0 (List.mem_cons_of_mem m h0)
    have hmm := hM m (List.mem_cons_self m rest)
    cases hgo : groupOne st m false with
    | some st1 =>
      rw [onePass_cons_some hgo]
      have hS1 : SInv l st1 := groupOne_sound hg hS hmm.1 (Or.inr ⟨rfl, hmm.2.2⟩) hgo
      obtain ⟨S, M, cov, mono⟩ := ih st1 hS1 hmrest
      refine ⟨S, M, ?_, fun k hk => mono k (groupOne_mono hgo k hk)⟩
      intro m0 hm0
      cases List.mem_cons.mp hm0 with
      | inl he => subst he; exact Or.inl (mono _ (groupOne_self hgo))
      | inr h0 => exact cov m0 h0
    | none =>
      rw [onePass_cons_none hgo]
      obtain ⟨S, M, cov, mono⟩ := ih st hS hmrest
      refine ⟨S, ?_, ?_, mono⟩
      · intro m0 hm0
        cases List.mem_cons.mp hm0 with
        | inl he => subst he; exact hmm
        | inr h0 => exact M m0 h0
      · intro m0 hm0
        cases List.mem_cons.mp hm0 with
        | inl he => subst he; exact Or.inr (List.mem_cons_self _ _)
        | inr h0 =>
          cases cov m0 h0 with
          | inl hl => exact Or.inl hl
          | inr hr => exact Or.inr (List.mem_cons_of_mem _ hr)

lemma retryFuel_inv {l : List Msg} (hg : Good l) :
    ∀ (f : Nat) (st : GState) (ms : List Msg) (nm : Nat),
    SInv l st → MissInv l ms →
    SInv l (retryFuel f st ms nm).1 ∧ MissInv l (retryFuel f st ms nm).2.1 ∧
    (∀ m ∈ ms, (alookup (retryFuel f st ms nm).1 m.mid).isSome ∨
      m ∈ (retryFuel f st ms nm).2.1) ∧
    (∀ k, (alookup st k).isSome → (alookup (retryFuel f st ms nm).1 k).isSome) := by
  intro f
  induction f with
  | zero =>
    intro st ms nm hS hM
    exact ⟨hS, hM, fun m hm => Or.inr hm, fun k hk => hk⟩
  | succ f ih =>
    intro st ms nm hS hM
    rw [retryFuel_succ]
    by_cases he : nm = ms.length
    · rw [if_pos he]
      exact ⟨hS, hM, fun m hm => Or.inr hm, fun k hk => hk⟩
    · rw [if_neg he]
      obtain ⟨S1, M1, cov1, mono1⟩ := onePass_spec hg ms st hS hM
      obtain ⟨S2, M2, cov2, mono2⟩ := ih (onePass st ms).1 (onePass st ms).2 ms.length S1 M1
      refine ⟨S2, M2, ?_, fun k hk => mono2 k (mono1 k hk)⟩
      intro m hm
      cases cov1 m hm with
      | inl hl => exact Or.inl (mono2 _ hl)
      | inr hr => exact cov2 m hr

lemma assemble_main {l : List Msg} (hg : Good l) :
    SInv l (assembleState l) ∧
    (∀ m ∈ l, (alookup (assembleState l) m.mid).isSome ∨
      m ∈ (retry_loop (initPass [] [] l).1 (initPass [] [] l).2).2.1) ∧
    (∀ m ∈ (retry_loop (initPass [] [] l).1 (initPass [] [] l).2).2.1,
      m ∈ l ∧ m.refs ≠ [] ∧ forceRootCond m = false) ∧
    (∀ m ∈ (retry_loop (initPass [] [] l).1 (initPass [] [] l).2).2.1,
      groupOne (assembleState l) m false = none) := by
  have hS0 : SInv l [] := by intro k v h; cases h
  have hM0 : MissInv l [] := by intro m hm; cases hm
  obtain ⟨S1, M1, cov1, _, _⟩ := initPass_spec hg l [] [] (fun m hm => hm) hS0 hM0
  obtain ⟨S2, M2, cov2, mono2⟩ := retryFuel_inv hg ((initPass [] [] l).2.length + 2)
    (initPass [] [] l).1 (initPass [] [] l).2 0 S1 M1
  have hnm : (0 ≠ (initPass [] [] l).2.length ∨ (initPass [] [] l).2 = []) := by
    by_cases h : (initPass [] [] l).2 = []
    · exact Or.inr h
    · refine Or.inl (fun h0 => h ?_)
      exact List.length_eq_zero.mp h0.symm
  have hfp := retryFuel_spec ((initPass [] [] l).2.length + 2)
    (initPass [] [] l).1 (initPass [] [] l).2 0 (by omega) hnm
  have hnone := onePass_none_of_fixed _ _ hfp.2
  refine ⟨S2, ?_, M2, hnone⟩
  intro m hm
  cases cov1 m hm with
  | inl hl => exact Or.inl (mono2 _ hl)
  | inr hr => exact cov2 m hr

lemma reaches_complete {l : List Msg} (hg : Good l) {st : GState} {ms : List Msg}
    (hS : SInv l st) (hM : MissInv l ms)
    (hCov : ∀ m ∈ l, (alookup st m.mid).isSome ∨ m ∈ ms)
    (hFix : ∀ m ∈ ms, groupOne st m false = none)
    {m : Msg} {ρ : Str} (hre : Reaches l m ρ) (hm : m ∈ l) :
    alookup st m.mid = some ρ := by
  revert hm
  induction hre with
  | isRoot m0 h0 =>
    intro hm0
    cases hCov m0 hm0 with
    | inl hsome =>
      obtain ⟨v, hv⟩ := Option.isSome_iff_exists.mp hsome
      obtain ⟨m1, hm1, hmid, hre1⟩ := hS m0.mid v hv
      have hmm : m1 = m0 := mid_inj hg.nodup hm1 hm0 hmid
      subst hmm
      rw [hv]
      rw [reaches_fun hre1 (Reaches.isRoot m1 h0)]
    | inr hmiss =>
      have hp := hM m0 hmiss
      rw [hp.2.2] at h0
      simp only [Bool.or_false] at h0
      exact absurd (List.isEmpty_iff.mp h0) hp.2.1
  | step m0 p r ρ0 hno hr hfind hrec ih =>
    intro hm0
    have hpfacts := (findMsg_eq hg.nodup).mp hfind
    have hplook : alookup st p.mid = some ρ0 := ih hpfacts.1
    cases hCov m0 hm0 with
    | inl hsome =>
      obtain ⟨v, hv⟩ := Option.isSome_iff_exists.mp hsome
      obtain ⟨m1, hm1, hmid, hre1⟩ := hS m0.mid v hv
      have hmm : m1 = m0 := mid_inj hg.nodup hm1 hm0 hmid
      subst hmm
      rw [hv]
      rw [reaches_fun hre1 (Reaches.step m1 p r ρ0 hno hr hfind hrec)]
    | inr hmiss =>
      have hgo := hFix m0 hmiss
      have halr : alookup st r = some ρ0 := by rw [← hpfacts.2]; exact hplook
      rw [groupOne_attach hr halr] at hgo
      cases hgo

lemma membership_some_char {l : List Msg} (hg : Good l) {m : Msg} (hm : m ∈ l) (ρ : Str) :
    membership l m.mid = some ρ ↔ Reaches l m ρ := by
  obtain ⟨hS, hCov, hM, hFix⟩ := assemble_main hg
  constructor
  · intro h
    obtain ⟨m1, hm1, hmid, hre1⟩ := hS m.mid ρ h
    have hmm : m1 = m := mid_inj hg.nodup hm1 hm hmid
    rwa [hmm] at hre1
  · intro hre
    exact reaches_complete hg hS hM hCov hFix hre hm

lemma membership_absent {l : List Msg} (hg : Good l) {k : Str}
    (h : ∀ m ∈ l, m.mid ≠ k) : membership l k = none := by
  obtain ⟨hS, _, _, _⟩ := assemble_main hg
  cases hv : membership l k with
  | none => rfl
  | some v =>
    obtain ⟨m, hm, hmid, _⟩ := hS k v hv
    exact absurd hmid (h m hm)

/-- Claim C2 (amended): provided every message has a subject, message-ids
are pairwise distinct, every reference names a message of the run, every
message carries at most one reference, and no message satisfies the
syzbot-root reply rule, the final thread membership of the assembler
(initial pass plus miss-queue retries to fixed point) is identical for
every processing order. -/
theorem c2_perm_independent (l lp : List Msg) (hg : Good l) (hperm : lp.Perm l) (k : Str) :
    membership lp k = membership l k := by
  have hg' : Good lp := good_perm hperm hg
  by_cases hex : ∃ m ∈ l, m.mid = k
  · obtain ⟨m, hm, hmid⟩ := hex
    subst hmid
    have hmp : m ∈ lp := hperm.mem_iff.mpr hm
    cases hv : membership l m.mid with
    | some ρ =>
      have hre : Reaches l m ρ := (membership_some_char hg hm ρ).mp hv
      have hre' : Reaches lp m ρ := reaches_perm hperm hg hre
      exact (membership_some_char hg' hmp ρ).mpr hre'
    | none =>
      cases hv' : membership lp m.mid with
      | none => rfl
      | some ρ =>
        have hre' : Reaches lp m ρ := (membership_some_char hg' hmp ρ).mp hv'
        have hre : Reaches l m ρ := reaches_perm hperm.symm hg' hre'
        have hcontr := (membership_some_char hg hm ρ).mpr hre
        rw [hv] at hcontr
        cases hcontr
  · push_neg at hex
    have h1 : membership l k = none := membership_absent hg hex
    have h2 : membership lp k = none :=
      membership_absent hg' (fun m hm => hex m (hperm.mem_iff.mp hm))
    rw [h1, h2]

/-- Claim C2 counterexample report message. -/
def msgSyzA : Msg :=
  Msg.mk (("<a>").toList) [] (("[syzbot] crash").toList)
    (("syzbot <s@syzkaller.appspotmail.com>").toList) false

/-- Claim C2 counterexample reply message (references the report). -/
def msgSyzB : Msg :=
  Msg.mk (("<b>").toList) [("<a>").toList] (("Re: [syzbot] crash").toList)
    (("syzbot <s@syzkaller.appspotmail.com>").toList) false

/-- Claim C2 counterexample: in chronological order the syzbot reply joins
the report thread, but when processed first the syzbot-root rule makes it
its own root, so membership differs between the two orders although no
message references an id absent from the run. -/
theorem c2_counterexample :
    [msgSyzB, msgSyzA].Perm [msgSyzA, msgSyzB] ∧
    (∀ m ∈ [msgSyzA, msgSyzB], ∀ r ∈ m.refs, ∃ p ∈ [msgSyzA, msgSyzB], p.mid = r) ∧
    membership [msgSyzB, msgSyzA] (("<b>").toList) ≠
      membership [msgSyzA, msgSyzB] (("<b>").toList) := by
  refine ⟨List.Perm.swap msgSyzA msgSyzB [], by decide, by decide⟩

/-- Claim C2 witness patch message. -/
def msgP1 : Msg :=
  Msg.mk (("<1>").toList) [] (("[PATCH] f").toList) (("D <d@d>").toList) false

/-- Claim C2 witness reply message. -/
def msgP2 : Msg :=
  Msg.mk (("<2>").toList) [("<1>").toList] (("Re: [PATCH] f").toList)
    (("R <r@r>").toList) false

/-- Claim C2 witness: a two-message patch thread delivered reply first
yields the same membership as in chronological order. -/
theorem c2_witness :
    [msgP2, msgP1].Perm [msgP1, msgP2] ∧
    membership [msgP2, msgP1] (("<2>").toList) =
      membership [msgP1, msgP2] (("<2>").toList) :=
  ⟨List.Perm.swap msgP1 msgP2 [],
   c2_perm_independent [msgP1, msgP2] [msgP2, msgP1]
     ⟨by decide, by decide, by decide, by decide, by decide⟩
     (List.Perm.swap msgP1 msgP2 []) (("<2>").toList)⟩

end MlStat
